import Mathlib

/-!
Verification development for the advanced-vector repository
(src/advanced-vector/vector.h).

The C++ code manages one raw buffer of `capacity_` uninitialized slots
(class RawMemory) plus a live-element count `size_` (class Vector).  We embed
a buffer as a `List (Option a)`: slot `i` is `none` while raw/uninitialized
and `some a` while it holds a live element of value `a`.  Placement-new of a
value writes `some a` into a slot, a destructor call writes `none`, and the
bulk algorithms (`std::uninitialized_copy_n`, `std::uninitialized_move_n`,
`std::copy`, `std::move`, `std::move_backward`, `std::destroy_n`,
`std::uninitialized_value_construct_n`) are bulk slot writes reading from a
source snapshot, which coincides with their element-wise processing order at
every use site in the code (the source region is never overwritten before it
is read).  Reading a slot out of range, or writing one, is undefined
behaviour in C++; the embedding reads `none` and drops the write.
-/

namespace AdvVec

/-- Reads slot `i` of a raw buffer (C++ `buffer_[i]`): `none` when the slot is
raw or out of range, `some a` when a live element of value `a` sits there. -/
def slotGet : List (Option b) → Nat → Option b
  | [], _ => none
  | a :: _, 0 => a
  | _ :: l, n + 1 => slotGet l n

theorem slotGet_nil (i : Nat) : slotGet ([] : List (Option b)) i = none := by
  cases i <;> rfl

theorem slotGet_ge (l : List (Option b)) : ∀ i : Nat, l.length ≤ i → slotGet l i = none := by
  induction l with
  | nil => intro i _; exact slotGet_nil i
  | cons a l ih =>
    intro i h
    cases i with
    | zero => simp at h
    | succ n => exact ih n (by simpa using h)

theorem slotGet_set_self (l : List (Option b)) :
    ∀ (i : Nat) (a : Option b), i < l.length → slotGet (l.set i a) i = a := by
  induction l with
  | nil => intro i a h; simp at h
  | cons c l ih =>
    intro i a h
    cases i with
    | zero => rfl
    | succ n => exact ih n a (by simpa using h)

theorem slotGet_set_ne (l : List (Option b)) :
    ∀ (i j : Nat) (a : Option b), i ≠ j → slotGet (l.set i a) j = slotGet l j := by
  induction l with
  | nil => intro i j a _; rfl
  | cons c l ih =>
    intro i j a hne
    cases i with
    | zero =>
      cases j with
      | zero => exact absurd rfl hne
      | succ m => rfl
    | succ n =>
      cases j with
      | zero => rfl
      | succ m => exact ih n m a (fun h => hne (by rw [h]))

theorem slotGet_replicate (n i : Nat) : slotGet (List.replicate n (none : Option b)) i = none := by
  induction n generalizing i with
  | zero => cases i <;> rfl
  | succ m ih =>
    cases i with
    | zero => rfl
    | succ k => exact ih k

/-- Writes slots `eo, eo+1, ..., eo+n-1` of `dst`, slot `eo+j` receiving `f j`.
Shared shape of all the bulk slot-writing algorithms used by the code. -/
def writeN (f : Nat → Option b) (dst : List (Option b)) (eo : Nat) : Nat → List (Option b)
  | 0 => dst
  | n + 1 => (writeN f dst eo n).set (eo + n) (f n)

theorem length_writeN (f : Nat → Option b) (dst : List (Option b)) (eo : Nat) :
    ∀ n, (writeN f dst eo n).length = dst.length := by
  intro n
  induction n with
  | zero => rfl
  | succ m ih =>
    show ((writeN f dst eo m).set (eo + m) (f m)).length = dst.length
    rw [List.length_set, ih]

theorem slotGet_writeN_lo (f : Nat → Option b) (dst : List (Option b)) (eo : Nat) :
    ∀ (n i : Nat), i < eo → slotGet (writeN f dst eo n) i = slotGet dst i := by
  intro n
  induction n with
  | zero => intro i _; rfl
  | succ m ih =>
    intro i h
    show slotGet ((writeN f dst eo m).set (eo + m) (f m)) i = slotGet dst i
    rw [slotGet_set_ne _ (eo + m) i _ (by omega), ih i h]

theorem slotGet_writeN_hi (f : Nat → Option b) (dst : List (Option b)) (eo : Nat) :
    ∀ (n i : Nat), eo + n ≤ i → slotGet (writeN f dst eo n) i = slotGet dst i := by
  intro n
  induction n with
  | zero => intro i _; rfl
  | succ m ih =>
    intro i h
    show slotGet ((writeN f dst eo m).set (eo + m) (f m)) i = slotGet dst i
    rw [slotGet_set_ne _ (eo + m) i _ (by omega), ih i (by omega)]

theorem slotGet_writeN_mid (f : Nat → Option b) (dst : List (Option b)) (eo : Nat) :
    ∀ (n i : Nat), eo ≤ i → i < eo + n → i < dst.length →
      slotGet (writeN f dst eo n) i = f (i - eo) := by
  intro n
  induction n with
  | zero => intro i h1 h2 _; omega
  | succ m ih =>
    intro i h1 h2 h3
    show slotGet ((writeN f dst eo m).set (eo + m) (f m)) i = f (i - eo)
    by_cases hc : i = eo + m
    · subst hc
      rw [slotGet_set_self _ _ _ (by rw [length_writeN]; exact h3)]
      have : eo + m - eo = m := by omega
      rw [this]
    · rw [slotGet_set_ne _ (eo + m) i _ (fun h => hc h.symm)]
      exact ih i h1 (by omega) h3

/-- `std::uninitialized_copy_n` / `std::uninitialized_move_n` / `std::copy` /
`std::move` / `std::move_backward` of `n` elements from `src` starting at
offset `so` into `dst` starting at offset `eo`: values are transferred
slot-wise; reads are from the snapshot `src`, which coincides with the
processing order at every use site. -/
def copyN (src : List (Option b)) (so : Nat) (dst : List (Option b)) (eo n : Nat) :
    List (Option b) :=
  writeN (fun j => slotGet src (so + j)) dst eo n

/-- `std::destroy_n(dst + off, n)`: runs destructors, leaving slots raw. -/
def destroyN (dst : List (Option b)) (off n : Nat) : List (Option b) :=
  writeN (fun _ => none) dst off n

/-- `std::uninitialized_value_construct_n(dst + off, n)` with `d` the
value-initialized element value. -/
def constructN (d : b) (dst : List (Option b)) (off n : Nat) : List (Option b) :=
  writeN (fun _ => some d) dst off n

theorem length_copyN (src : List (Option b)) (so : Nat) (dst : List (Option b)) (eo n : Nat) :
    (copyN src so dst eo n).length = dst.length := length_writeN _ _ _ _

theorem length_destroyN (dst : List (Option b)) (off n : Nat) :
    (destroyN dst off n).length = dst.length := length_writeN _ _ _ _

theorem length_constructN (d : b) (dst : List (Option b)) (off n : Nat) :
    (constructN d dst off n).length = dst.length := length_writeN _ _ _ _

theorem slotGet_copyN_lo (src : List (Option b)) (so : Nat) (dst : List (Option b))
    (eo n i : Nat) (h : i < eo) : slotGet (copyN src so dst eo n) i = slotGet dst i :=
  slotGet_writeN_lo _ _ _ n i h

theorem slotGet_copyN_hi (src : List (Option b)) (so : Nat) (dst : List (Option b))
    (eo n i : Nat) (h : eo + n ≤ i) : slotGet (copyN src so dst eo n) i = slotGet dst i :=
  slotGet_writeN_hi _ _ _ n i h

theorem slotGet_copyN_mid (src : List (Option b)) (so : Nat) (dst : List (Option b))
    (eo n i : Nat) (h1 : eo ≤ i) (h2 : i < eo + n) (h3 : i < dst.length) :
    slotGet (copyN src so dst eo n) i = slotGet src (so + (i - eo)) :=
  slotGet_writeN_mid _ _ _ n i h1 h2 h3

theorem slotGet_destroyN_lo (dst : List (Option b)) (off n i : Nat) (h : i < off) :
    slotGet (destroyN dst off n) i = slotGet dst i := slotGet_writeN_lo _ _ _ n i h

theorem slotGet_destroyN_hi (dst : List (Option b)) (off n i : Nat) (h : off + n ≤ i) :
    slotGet (destroyN dst off n) i = slotGet dst i := slotGet_writeN_hi _ _ _ n i h

theorem slotGet_destroyN_mid (dst : List (Option b)) (off n i : Nat)
    (h1 : off ≤ i) (h2 : i < off + n) (h3 : i < dst.length) :
    slotGet (destroyN dst off n) i = none := slotGet_writeN_mid _ _ _ n i h1 h2 h3

theorem slotGet_constructN_lo (d : b) (dst : List (Option b)) (off n i : Nat) (h : i < off) :
    slotGet (constructN d dst off n) i = slotGet dst i := slotGet_writeN_lo _ _ _ n i h

theorem slotGet_constructN_hi (d : b) (dst : List (Option b)) (off n i : Nat)
    (h : off + n ≤ i) :
    slotGet (constructN d dst off n) i = slotGet dst i := slotGet_writeN_hi _ _ _ n i h

theorem slotGet_constructN_mid (d : b) (dst : List (Option b)) (off n i : Nat)
    (h1 : off ≤ i) (h2 : i < off + n) (h3 : i < dst.length) :
    slotGet (constructN d dst off n) i = some d := slotGet_writeN_mid _ _ _ n i h1 h2 h3

/-- C++ `RawMemory<T>` (vector.h lines 8-84): one raw buffer of `capacity_`
uninitialized slots; `buffer_ == nullptr` with `capacity_ == 0` is the empty
buffer, embedded as the empty list. -/
structure RawMemory (a : Type) where
  buffer : List (Option a)
deriving DecidableEq

/-- `RawMemory::Capacity()` (lines 67-69). -/
def RawMemory.capacity (r : RawMemory a) : Nat := r.buffer.length

/-- `RawMemory::RawMemory(size_t capacity)` with `Allocate` (lines 13-15,
73-75): `n` raw slots, no element constructed; `n = 0` yields the null
buffer. -/
def RawMemory.allocate (a : Type) (n : Nat) : RawMemory a :=
  ⟨List.replicate n none⟩

/-- `RawMemory::operator=(RawMemory&&)` for `this != &rhs` (lines 21-29):
the destination takes the source's buffer and capacity, the source becomes
the null buffer.  The destination's previous buffer pointer is overwritten
without deallocation (a leak, not observable through the interface). -/
def RawMemory.moveAssign (_dst src : RawMemory a) : RawMemory a × RawMemory a :=
  (⟨src.buffer⟩, ⟨[]⟩)

/-- `RawMemory::operator=(RawMemory&&)` when `this == &rhs`: the
`this != &rhs` guard skips the body, leaving the object unchanged. -/
def RawMemory.moveAssignSelf (r : RawMemory a) : RawMemory a := r

/-- `RawMemory::Swap` (lines 54-57). -/
def RawMemory.swapBuf (r s : RawMemory a) : RawMemory a × RawMemory a := (s, r)

/-- C++ `Vector<T>` (vector.h lines 86-298): a `RawMemory` buffer `data_`
plus the live-element count `size_`.  Slots `[0, size_)` are intended live,
slots `[size_, capacity)` raw. -/
structure Vector (a : Type) where
  data : RawMemory a
  size : Nat
deriving DecidableEq

/-- `Vector::Capacity()` (lines 259-261). -/
def Vector.capacity (v : Vector a) : Nat := v.data.capacity

/-- `Vector::operator[]` (lines 263-269): reads slot `i`. -/
def Vector.slot (v : Vector a) (i : Nat) : Option a := slotGet v.data.buffer i

/-- The contents of the live range `[begin(), end())`, in order. -/
def Vector.live (v : Vector a) : List (Option a) :=
  (List.range v.size).map (fun i => v.slot i)

/-- Class invariant of `Vector` (spec section 3): `size_ ≤ capacity` and
exactly the slots `[0, size_)` hold live elements. -/
@[reducible] def WF (v : Vector a) : Prop :=
  v.size ≤ v.capacity ∧ ∀ i, i < v.capacity → ((slotGet v.data.buffer i).isSome ↔ i < v.size)

/-- `Vector::Vector()` (line 92): the empty container, null buffer. -/
def emptyVec (a : Type) : Vector a := ⟨⟨[]⟩, 0⟩

/-- `Vector::Vector(size_t size)` (lines 94-97): allocate `size` slots and
value-construct `size` elements; `d` models the value-initialized element
value of `T`. -/
def mkVec (d : a) (n : Nat) : Vector a :=
  ⟨⟨constructN d (List.replicate n none) 0 n⟩, n⟩

/-- `Vector::Vector(const Vector&)` (lines 99-102): allocate exactly
`other.size_` slots and copy-construct the `other.size_` live elements. -/
def copyCtorV (other : Vector a) : Vector a :=
  ⟨⟨copyN other.data.buffer 0 (List.replicate other.size none) 0 other.size⟩, other.size⟩

/-- `Vector::Reserve` (lines 134-146): no-op when `new_capacity ≤ capacity`;
otherwise allocate exactly `new_capacity` slots, relocate the `size_` live
elements (by move or copy according to the `if constexpr` policy — either way
the values land in slots `[0, size_)` of the new buffer), destroy the old
elements, and swap buffers. -/
def Reserve (v : Vector a) (newCap : Nat) : Vector a :=
  if newCap ≤ v.capacity then v
  else ⟨⟨copyN v.data.buffer 0 (List.replicate newCap none) 0 v.size⟩, v.size⟩

/-- `Vector::Swap` (lines 148-150). -/
def SwapV (v w : Vector a) : Vector a × Vector a :=
  (⟨w.data, w.size⟩, ⟨v.data, v.size⟩)

/-- `Vector::Resize` (lines 152-163). -/
def Resize (v : Vector a) (d : a) (newSize : Nat) : Vector a :=
  if newSize = v.size then v
  else if newSize < v.size then
    ⟨⟨destroyN v.data.buffer newSize (v.size - newSize)⟩, newSize⟩
  else
    ⟨⟨constructN d (Reserve v newSize).data.buffer v.size (newSize - v.size)⟩, newSize⟩

/-- `Vector::PushBack` (lines 165-181), success path: when `capacity == size`
allocate `size == 0 ? 1 : size * 2` slots, construct the new element into
slot `size` of the new buffer, relocate the old elements into slots
`[0, size)` (move or copy per the `if constexpr` policy), destroy the old
elements and swap; otherwise construct in place at slot `size`.  Either way
`++size_`. -/
def PushBack (v : Vector a) (x : a) : Vector a :=
  if v.capacity = v.size then
    ⟨⟨copyN v.data.buffer 0
        ((List.replicate (if v.size = 0 then 1 else v.size * 2) (none : Option a)).set
          v.size (some x)) 0 v.size⟩, v.size + 1⟩
  else
    ⟨⟨v.data.buffer.set v.size (some x)⟩, v.size + 1⟩

/-- `Vector::EmplaceBack` (lines 183-199), success path: its body is
line-for-line the body of `PushBack` with `T(std::forward<Args>(args)...)`
in place of `T(std::forward<M>(value))`; `x` models the element constructed
from the arguments.  Returns `data_[size_++]`, i.e. the new element. -/
def EmplaceBack (v : Vector a) (x : a) : Vector a × a :=
  (PushBack v x, x)

/-- `Vector::Emplace` (lines 201-233), success path.  With `capacity == size`:
allocate `size == 0 ? 1 : size * 2` slots, construct the new element into slot
`pos` of the new buffer, relocate old slots `[0, pos)` to `[0, pos)` and old
slots `[pos, size)` to `[pos+1, size+1)` (two passes, move or copy per the
`if constexpr` policy), destroy the old elements, swap.  Otherwise, at
`pos == size` construct in place at `end()`; at an interior `pos` construct a
temporary from the arguments, move-construct the last element into slot
`size`, shift slots `[pos, size-1)` one slot later via `std::move_backward`
(processed from the back, so each slot is read before it is overwritten —
the snapshot reads of `copyN` coincide), and move-assign the temporary into
slot `pos`.  Returns `begin() + pos_index`. -/
def Emplace (v : Vector a) (pos : Nat) (x : a) : Vector a × Nat :=
  if v.capacity = v.size then
    (⟨⟨copyN v.data.buffer pos
          (copyN v.data.buffer 0
            ((List.replicate (if v.size = 0 then 1 else v.size * 2) (none : Option a)).set
              pos (some x)) 0 pos)
          (pos + 1) (v.size - pos)⟩, v.size + 1⟩, pos)
  else
    if pos = v.size then
      (⟨⟨v.data.buffer.set v.size (some x)⟩, v.size + 1⟩, pos)
    else
      (⟨⟨(copyN v.data.buffer pos
            (v.data.buffer.set v.size (slotGet v.data.buffer (v.size - 1)))
            (pos + 1) (v.size - 1 - pos)).set pos (some x)⟩, v.size + 1⟩, pos)

/-- `Vector::Insert` (lines 235-240): defined as `Emplace(pos, item)`. -/
def Insert (v : Vector a) (pos : Nat) (x : a) : Vector a × Nat := Emplace v pos x

/-- `Vector::Erase` (lines 242-248): `std::move` slots `(pos, size)` one slot
earlier (processed front to back, so each slot is read before it is
overwritten — the snapshot reads of `copyN` coincide), destroy the last live
slot, `--size_`, return `begin() + pos_index`. -/
def Erase (v : Vector a) (pos : Nat) : Vector a × Nat :=
  (⟨⟨(copyN v.data.buffer (pos + 1) v.data.buffer pos (v.size - (pos + 1))).set
      (v.size - 1) none⟩, v.size - 1⟩, pos)

/-- `Vector::PopBack` (lines 250-253). -/
def PopBack (v : Vector a) : Vector a :=
  ⟨⟨v.data.buffer.set (v.size - 1) none⟩, v.size - 1⟩

/-- `Vector::operator=(const Vector&)` for `this != &other` (lines 104-121). -/
def assignCopy (dst src : Vector a) : Vector a :=
  if src.size ≤ dst.capacity then
    if dst.size ≤ src.size then
      ⟨⟨copyN src.data.buffer dst.size
          (copyN src.data.buffer 0 dst.data.buffer 0 dst.size) dst.size
          (src.size - dst.size)⟩, src.size⟩
    else
      ⟨⟨destroyN (copyN src.data.buffer 0 dst.data.buffer 0 src.size) src.size
          (dst.size - src.size)⟩, src.size⟩
  else
    copyCtorV src

/-- `Vector::operator=(const Vector&)` when `this == &other`: the
`this != &other` guard skips the body, leaving the object unchanged. -/
def assignCopySelf (v : Vector a) : Vector a := v

/-- `Vector::operator=(Vector&&)` for `this != &other` (lines 127-132):
`data_ = std::move(other.data_)` (via `RawMemory.moveAssign`),
`size_ = other.size_`, `other.size_ = 0`.  Every step is `noexcept`. -/
def assignMove (dst src : Vector a) : Vector a × Vector a :=
  (⟨(RawMemory.moveAssign dst.data src.data).1, src.size⟩,
   ⟨(RawMemory.moveAssign dst.data src.data).2, 0⟩)

/-- `Vector::operator=(Vector&&)` when `this == &other`: the RawMemory
self-assignment guard keeps `data_` unchanged, `size_ = other.size_` is a
self-assignment, and then `other.size_ = 0` zeroes this very object's size. -/
def assignMoveSelf (v : Vector a) : Vector a :=
  ⟨RawMemory.moveAssignSelf v.data, 0⟩

/-- `Vector::Vector(Vector&&)` (lines 123-125): default-initialize, then
move-assign from `other`. -/
def moveCtorV (src : Vector a) : Vector a := (assignMove (emptyVec a) src).1

/-- The public mutating operations of `Vector` (vector.h lines 86-298), for
stating the class invariant uniformly.  Constructor operations ignore the
input state. -/
inductive Op (a : Type) where
  | ctorEmpty : Op a
  | ctorN : a → Nat → Op a
  | ctorCopy : Vector a → Op a
  | ctorMove : Vector a → Op a
  | reserveOp : Nat → Op a
  | resizeOp : a → Nat → Op a
  | pushBackOp : a → Op a
  | emplaceBackOp : a → Op a
  | emplaceOp : Nat → a → Op a
  | insertOp : Nat → a → Op a
  | eraseOp : Nat → Op a
  | popBackOp : Op a
  | assignCopyOp : Vector a → Op a
  | assignCopySelfOp : Op a
  | assignMoveOp : Vector a → Op a
  | assignMoveSelfOp : Op a
  | swapOp : Vector a → Op a
deriving DecidableEq

/-- Documented precondition of each operation: position arguments denote a
valid position (`pos ≤ size` for Emplace/Insert, `pos < size` for Erase),
`PopBack` requires a nonempty container, and any other container taking part
in the operation satisfies the class invariant. -/
@[reducible] def Op.pre : Op a → Vector a → Prop
  | .ctorCopy w, _ => WF w
  | .ctorMove w, _ => WF w
  | .emplaceOp p _, v => p ≤ v.size
  | .insertOp p _, v => p ≤ v.size
  | .eraseOp p, v => p < v.size
  | .popBackOp, v => 0 < v.size
  | .assignCopyOp w, _ => WF w
  | .assignMoveOp w, _ => WF w
  | .swapOp w, _ => WF w
  | _, _ => True

/-- The state of the container after the operation completes normally (for
operations returning a value or a second container, the state of `this`). -/
def Op.applyOp : Op a → Vector a → Vector a
  | .ctorEmpty, _ => emptyVec a
  | .ctorN d n, _ => mkVec d n
  | .ctorCopy w, _ => copyCtorV w
  | .ctorMove w, _ => moveCtorV w
  | .reserveOp n, v => Reserve v n
  | .resizeOp d n, v => Resize v d n
  | .pushBackOp x, v => PushBack v x
  | .emplaceBackOp x, v => (EmplaceBack v x).1
  | .emplaceOp p x, v => (Emplace v p x).1
  | .insertOp p x, v => (Insert v p x).1
  | .eraseOp p, v => (Erase v p).1
  | .popBackOp, v => PopBack v
  | .assignCopyOp w, v => assignCopy v w
  | .assignCopySelfOp, v => assignCopySelf v
  | .assignMoveOp w, v => (assignMove v w).1
  | .assignMoveSelfOp, v => assignMoveSelf v
  | .swapOp w, v => (SwapV v w).1

/-- The value of an element object, additionally tracking the valid-but-
unspecified state left behind in a source object by a successful move. -/
inductive EVal (a : Type) where
  | val : a → EVal a
  | moved : EVal a
deriving DecidableEq

/-- The static properties of the element type `T` consulted by the
`if constexpr` relocation policy (lines 139, 170, 188, 207):
`std::is_nothrow_move_constructible_v<T>` and
`std::is_copy_constructible_v<T>`. -/
structure TypeProfile where
  nothrowMove : Bool
  copyable : Bool
deriving DecidableEq

/-- The `if constexpr` condition: relocation uses
`std::uninitialized_move_n` when the move constructor cannot throw or the
type has no copy constructor, else `std::uninitialized_copy_n`. -/
def movesOnReloc (p : TypeProfile) : Bool := p.nothrowMove || !p.copyable

/-- Container state for the fault-injected growth model: the live elements
are `EVal`s so a moved-from source is representable.  `buffer.length` is the
capacity; the growth path requires `size = buffer.length`. -/
structure FVector (a : Type) where
  buffer : List (Option (EVal a))
  size : Nat
deriving DecidableEq

/-- Marks slots `[0, k)` as moved-from sources (successful
move-constructions out of them). -/
def markMovedN (bf : List (Option (EVal a))) : Nat → List (Option (EVal a))
  | 0 => bf
  | n + 1 => (markMovedN bf n).set n (some EVal.moved)

/-- The new buffer produced by a fully successful growth push: the old
values in slots `[0, size)`, the new element in slot `size`. -/
def relocated (v : FVector a) (x : a) : FVector a :=
  ⟨copyN v.buffer 0
      ((List.replicate (if v.size = 0 then 1 else v.size * 2) (none : Option (EVal a))).set
        v.size (some (EVal.val x))) 0 v.size, v.size + 1⟩

/-- Fault-injected growth path of `PushBack`/`EmplaceBack` (lines 167-176 and
185-194), for `capacity == size`.  `allocFails` injects a failure of the
`RawMemory` allocation.  `failAt` injects a throw into the `failAt`-th
potentially-throwing element-constructor invocation of the operation, in
program order: invocation `0` constructs the new element into
`new_data + size`; invocation `k + 1` relocates element `k`.  A
`nothrow_move_constructible` move never throws, so under that policy only
invocation `0` can fail.  Under copy relocation, `std::uninitialized_copy_n`
destroys the partially constructed destination prefix and the sources are
untouched.  Under throwing-move relocation (selected when the type has no
copy constructor), a throw at relocating element `k` leaves sources
`[0, k)` moved-from.  In every failing case the new buffer is released and
the exception propagates with `size_`, `data_` unswapped; the `.error`
payload is the observable container state after propagation. -/
def pushGrow (p : TypeProfile) (allocFails : Bool) (failAt : Option Nat)
    (v : FVector a) (x : a) : Except (FVector a) (FVector a) :=
  if allocFails then .error v
  else if failAt = some 0 then .error v
  else if movesOnReloc p then
    if p.nothrowMove then .ok (relocated v x)
    else
      match failAt with
      | some j =>
        if 1 ≤ j ∧ j ≤ v.size then .error ⟨markMovedN v.buffer (j - 1), v.size⟩
        else .ok (relocated v x)
      | none => .ok (relocated v x)
  else
    match failAt with
    | some j => if 1 ≤ j ∧ j ≤ v.size then .error v else .ok (relocated v x)
    | none => .ok (relocated v x)

/-- Observable outcome of the non-growth `Emplace` branch when a step throws
and the `catch` block (line 226-229) runs: the slot states after the handler,
and the offset from `begin()` of the pointer the handler passes to
`operator delete` (it passes `end()`, i.e. offset `size_`).  The handler runs
no destructor. -/
structure EmpFail (a : Type) where
  buffer : List (Option a)
  freedOff : Nat
deriving DecidableEq

/-- Fault-injected non-growth branch of `Vector::Emplace` (lines 216-230),
for `capacity > size`.  `failStep` numbers the potentially-throwing steps of
the interior case (`pos < size`) in program order: step `0` constructs the
temporary; step `1` move-constructs the last element into slot `size`
(opening the speculative slot); steps `2 .. 2 + (size-1-pos) - 1` are the
move-assignments of `std::move_backward`, processed from the back (the
`t`-th completed one writes slot `size-1-t`); step `2 + (size-1-pos)` is the
final move-assignment of the temporary into slot `pos`.  For `pos = size`
the single potentially-throwing step `0` is the placement-construction at
`end()`.  On a throw at any step the `catch` block executes
`operator delete(end())` and rethrows: no destructor runs, so the slot
states are exactly those reached when the throw happened (moved-from
sources keep their residual values here; no theorem reads them), and
`freedOff = size_`.  `size_` is never incremented on the failing path. -/
def emplaceNoGrow (failStep : Option Nat) (v : Vector a) (pos : Nat) (x : a) :
    Except (EmpFail a) (Vector a × Nat) :=
  if pos = v.size then
    if failStep = some 0 then .error ⟨v.data.buffer, v.size⟩
    else .ok (⟨⟨v.data.buffer.set v.size (some x)⟩, v.size + 1⟩, pos)
  else
    match failStep with
    | some 0 => .error ⟨v.data.buffer, v.size⟩
    | some 1 => .error ⟨v.data.buffer.set v.size (slotGet v.data.buffer (v.size - 1)),
        v.size⟩
    | some (k + 2) =>
      if k < v.size - 1 - pos then
        -- the throw happens during move_backward after k completed
        -- assignments, which filled slots [size - k, size)
        .error ⟨copyN v.data.buffer (v.size - k - 1)
            (v.data.buffer.set v.size (slotGet v.data.buffer (v.size - 1)))
            (v.size - k) k, v.size⟩
      else if k = v.size - 1 - pos then
        -- the final move-assignment into slot pos throws: all shifts done
        .error ⟨copyN v.data.buffer pos
            (v.data.buffer.set v.size (slotGet v.data.buffer (v.size - 1)))
            (pos + 1) (v.size - 1 - pos), v.size⟩
      else .ok (Emplace v pos x)
    | none => .ok (Emplace v pos x)

theorem WF.slot_isSome {v : Vector a} (hWF : WF v) (i : Nat) (h : i < v.size) :
    (slotGet v.data.buffer i).isSome := by
  exact (hWF.2 i (by have := hWF.1; omega)).mpr h

theorem WF.slot_none {v : Vector a} (hWF : WF v) (i : Nat) (h : v.size ≤ i) :
    slotGet v.data.buffer i = none := by
  by_cases hc : i < v.capacity
  · have h2 : ¬(slotGet v.data.buffer i).isSome := by
      rw [hWF.2 i hc]; omega
    exact Option.not_isSome_iff_eq_none.mp h2
  · exact slotGet_ge _ i (by simpa [Vector.capacity, RawMemory.capacity] using hc)

/-- C8: for every vector `c`, self-copy-assignment (`c = c`) is a no-op —
size, capacity, and all element values are unchanged afterwards (the
`this != &other` guard at line 105 skips the whole body). -/
theorem c8_self_copy_assign (v : Vector a) :
    assignCopySelf v = v ∧ (assignCopySelf v).size = v.size ∧
    (assignCopySelf v).capacity = v.capacity ∧ (assignCopySelf v).live = v.live :=
  ⟨rfl, rfl, rfl, rfl⟩

/-- C5: move-assigning a vector `s` into a distinct vector `d` never fails
(the model is a total function, matching the `noexcept` bodies at lines
21-29 and 127-132) and afterwards `d` holds `s`'s former buffer and size —
element-wise equal to `s`'s former contents — while `s` is the empty
container with size 0 and capacity 0. -/
theorem c5_move_assign (d s : Vector a) :
    (assignMove d s).1.data.buffer = s.data.buffer ∧
    (assignMove d s).1.size = s.size ∧
    (assignMove d s).1.live = s.live ∧
    (assignMove d s).2.size = 0 ∧
    (assignMove d s).2.capacity = 0 ∧
    (assignMove d s).2.live = [] :=
  ⟨rfl, rfl, rfl, rfl, rfl, rfl⟩

/-- C10: self-move-assignment (`v = std::move(v)`) keeps `v`'s buffer and
capacity unchanged (the RawMemory self-assignment guard) but sets `v`'s size
to 0 (`other.size_ = 0` aliases `this`), so the live range becomes empty and
all previously live elements are unreachable through the public interface. -/
theorem c10_self_move_assign (v : Vector a) :
    (assignMoveSelf v).data = v.data ∧
    (assignMoveSelf v).capacity = v.capacity ∧
    (assignMoveSelf v).size = 0 ∧
    (assignMoveSelf v).live = [] :=
  ⟨rfl, rfl, rfl, rfl⟩

/-- C3: an append (PushBack / EmplaceBack / Emplace) reallocates if and only
if `size == capacity` at the call: when `size == capacity` the new capacity
is `max 1 (2 * capacity)` (the code computes `size_ == 0 ? 1 : size_ * 2`,
which equals it since `size_ == capacity` there); when `size < capacity` the
very same buffer is kept (for PushBack literally `data_` with one slot
constructed) and the capacity is unchanged. -/
theorem c3_growth_policy (v : Vector a) (x : a) (pos : Nat) :
    (v.size = v.capacity →
        (PushBack v x).capacity = max 1 (2 * v.capacity) ∧
        (EmplaceBack v x).1.capacity = max 1 (2 * v.capacity) ∧
        (Emplace v pos x).1.capacity = max 1 (2 * v.capacity)) ∧
    (v.size < v.capacity →
        (PushBack v x).data.buffer = v.data.buffer.set v.size (some x) ∧
        (PushBack v x).capacity = v.capacity ∧
        (EmplaceBack v x).1.capacity = v.capacity ∧
        (Emplace v pos x).1.capacity = v.capacity) := by
  constructor
  · intro h
    have hc : v.data.buffer.length = v.size := h.symm
    have hmax : (if v.size = 0 then 1 else v.size * 2) = max 1 (2 * v.capacity) := by
      rw [← h]
      by_cases hz : v.size = 0
      · simp [hz]
      · simp [hz]
        omega
    have hp : (PushBack v x).capacity = (if v.size = 0 then 1 else v.size * 2) := by
      simp [PushBack, Vector.capacity, RawMemory.capacity, hc, length_copyN,
        List.length_set, List.length_replicate]
    have hem : (Emplace v pos x).1.capacity = (if v.size = 0 then 1 else v.size * 2) := by
      simp [Emplace, Vector.capacity, RawMemory.capacity, hc, length_copyN,
        List.length_set, List.length_replicate]
    exact ⟨hp.trans hmax, hp.trans hmax, hem.trans hmax⟩
  · intro h
    have hcl : v.capacity = v.data.buffer.length := rfl
    have hne : ¬v.data.buffer.length = v.size := by omega
    have he : (Emplace v pos x).1.capacity = v.capacity := by
      by_cases hp : pos = v.size <;>
        simp [Emplace, hne, hp, Vector.capacity, RawMemory.capacity,
          List.length_set, length_copyN]
    exact ⟨by simp [PushBack, Vector.capacity, RawMemory.capacity, hne],
      by simp [PushBack, hne, Vector.capacity, RawMemory.capacity, List.length_set],
      by simp [EmplaceBack, PushBack, hne, Vector.capacity, RawMemory.capacity,
        List.length_set],
      he⟩

theorem c3_growth_policy_witness :
    ((⟨⟨[some 5]⟩, 1⟩ : Vector Nat).size = (⟨⟨[some 5]⟩, 1⟩ : Vector Nat).capacity) ∧
    (PushBack (⟨⟨[some 5]⟩, 1⟩ : Vector Nat) 7).capacity =
      max 1 (2 * (⟨⟨[some 5]⟩, 1⟩ : Vector Nat).capacity) ∧
    ((⟨⟨[some 5, none]⟩, 1⟩ : Vector Nat).size <
      (⟨⟨[some 5, none]⟩, 1⟩ : Vector Nat).capacity) ∧
    (PushBack (⟨⟨[some 5, none]⟩, 1⟩ : Vector Nat) 7).capacity =
      (⟨⟨[some 5, none]⟩, 1⟩ : Vector Nat).capacity :=
  ⟨rfl, ((c3_growth_policy ⟨⟨[some 5]⟩, 1⟩ 7 0).1 rfl).1, by decide,
    (((c3_growth_policy ⟨⟨[some 5, none]⟩, 1⟩ 7 0).2 (by decide)).2).1⟩

/-- C1: evaluation of the non-growth interior insertion at a failing step.
On the vector `[10, 20]` with size 2 and capacity 3, `Emplace` at position 0
whose first `std::move_backward` move-assignment throws (step 2) reaches the
`catch` block having move-constructed the old last element (value 20) into
the speculative slot 2 = `slot[size]`.  The handler executes
`operator delete(end())` — recorded as `freedOff = 2`, the offset of an
interior pointer of the allocation, which `operator delete` may not receive —
and runs no destructor, so slot 2 still holds the live element (`some 20`)
after the failure propagates.  The claim (and the spec) says slot`[size]` is
destroyed; the code instead leaks the element and frees an invalid pointer. -/
theorem c1_emplace_catch_behavior :
    emplaceNoGrow (some 2) (⟨⟨[some 10, some 20, none]⟩, 2⟩ : Vector Nat) 0 99
      = Except.error ⟨[some 10, some 20, some 20], 2⟩ ∧
    slotGet [some 10, some 20, some (20 : Nat)] 2 = some 20 ∧
    (⟨[some 10, some 20, some 20], 2⟩ : EmpFail Nat).freedOff = 2 :=
  ⟨rfl, rfl, rfl⟩

/-- C2 counterexample: for a move-only element type whose move constructor
can throw (`nothrowMove = false`, `copyable = false`), the `if constexpr`
policy relocates by `std::uninitialized_move_n`.  On the full vector
`[10, 20]` (size 2 = capacity), a growth push whose second relocation
invocation throws (element 0 already moved) propagates the failure leaving
element 0 moved-from: the observable state after the failure differs from
the state before the call, refuting the claim as stated. -/
theorem c2_counterexample :
    pushGrow ⟨false, false⟩ false (some 2)
        (⟨[some (EVal.val 10), some (EVal.val 20)], 2⟩ : FVector Nat) 30
      = Except.error ⟨[some EVal.moved, some (EVal.val 20)], 2⟩ ∧
    (⟨[some EVal.moved, some (EVal.val 20)], 2⟩ : FVector Nat)
      ≠ ⟨[some (EVal.val 10), some (EVal.val 20)], 2⟩ :=
  ⟨rfl, by decide⟩

/-- C2 (amended): for every element type that is copy-constructible or has a
non-throwing move constructor — i.e., every type except move-only types with
a throwing move — if a growth push fails at any point (allocation, the
construction of the new element, or the relocation of any existing element),
then after the failure propagates the vector's size, capacity, and all prior
elements are observably unchanged (strong exception guarantee). -/
theorem c2_growth_strong (p : TypeProfile)
    (h : p.copyable = true ∨ p.nothrowMove = true) (af : Bool) (failAt : Option Nat)
    (v : FVector a) (x : a) (w : FVector a)
    (he : pushGrow p af failAt v x = Except.error w) : w = v := by
  obtain ⟨nm, cp⟩ := p
  cases nm with
  | true =>
    cases cp <;>
      (simp only [pushGrow, movesOnReloc] at he
       repeat' split at he
       all_goals first
       | (injection he with h1; exact h1.symm)
       | simp_all)
  | false =>
    cases cp with
    | true =>
      simp only [pushGrow, movesOnReloc] at he
      repeat' split at he
      all_goals first
      | (injection he with h1; exact h1.symm)
      | simp_all
    | false =>
      rcases h with h1 | h1 <;> exact Bool.noConfusion h1

theorem c2_growth_strong_witness :
    ((⟨false, true⟩ : TypeProfile).copyable = true ∨
      (⟨false, true⟩ : TypeProfile).nothrowMove = true) ∧
    (⟨[some (EVal.val 5)], 1⟩ : FVector Nat) = ⟨[some (EVal.val 5)], 1⟩ :=
  ⟨Or.inl rfl,
   c2_growth_strong ⟨false, true⟩ (Or.inl rfl) false (some 1)
     ⟨[some (EVal.val 5)], 1⟩ 7 ⟨[some (EVal.val 5)], 1⟩ rfl⟩

/-- C4: `Reserve(requested_capacity)` is a no-op when
`requested_capacity ≤ capacity`; otherwise it sets the capacity to exactly
`requested_capacity` while leaving the size unchanged and preserving the
value and order of all live elements. -/
theorem c4_reserve_spec (v : Vector a) (n : Nat) (h : v.size ≤ v.capacity) :
    (n ≤ v.capacity → Reserve v n = v) ∧
    (v.capacity < n →
        (Reserve v n).capacity = n ∧
        (Reserve v n).size = v.size ∧
        (Reserve v n).live = v.live) := by
  have hcl : v.capacity = v.data.buffer.length := rfl
  constructor
  · intro hle
    simp [Reserve, hle]
  · intro hgt
    have hnle : ¬n ≤ v.capacity := by omega
    have hnle2 : ¬n ≤ v.data.buffer.length := by omega
    refine ⟨?_, ?_, ?_⟩
    · simp [Reserve, hnle, hnle2, Vector.capacity, RawMemory.capacity, length_copyN,
        List.length_replicate]
    · simp [Reserve, hnle]
    · simp only [Reserve, if_neg hnle, Vector.live]
      apply List.map_congr_left
      intro i hi
      rw [List.mem_range] at hi
      simp only [Vector.slot]
      rw [slotGet_copyN_mid _ _ _ _ _ i (by omega) (by omega)
        (by simp only [List.length_replicate]; omega)]
      simp

theorem c4_reserve_spec_witness :
    (⟨⟨[some 3, none]⟩, 1⟩ : Vector Nat).size ≤
      (⟨⟨[some 3, none]⟩, 1⟩ : Vector Nat).capacity ∧
    (Reserve (⟨⟨[some 3, none]⟩, 1⟩ : Vector Nat) 5).capacity = 5 ∧
    (Reserve (⟨⟨[some 3, none]⟩, 1⟩ : Vector Nat) 5).live =
      (⟨⟨[some 3, none]⟩, 1⟩ : Vector Nat).live :=
  ⟨by decide,
   ((c4_reserve_spec ⟨⟨[some 3, none]⟩, 1⟩ 5 (by decide)).2 (by decide)).1,
   ((c4_reserve_spec ⟨⟨[some 3, none]⟩, 1⟩ 5 (by decide)).2 (by decide)).2.2⟩

/-- C6: `Resize(new_size)` with `new_size < size` destroys exactly the
elements at indices `[new_size, size)` without reallocating (capacity
unchanged, same buffer, remaining elements undisturbed) and sets
`size = new_size` (after the call every slot at index `≥ new_size` is raw);
with `new_size > size` it appends `new_size - size` value-constructed
elements without disturbing the existing ones; `Resize(size)` is a no-op. -/
theorem c6_resize_spec (v : Vector a) (d : a) (n : Nat) (hWF : WF v) :
    (n < v.size →
        (Resize v d n).capacity = v.capacity ∧
        (Resize v d n).size = n ∧
        (∀ i, i < n → (Resize v d n).slot i = v.slot i) ∧
        (∀ i, n ≤ i → (Resize v d n).slot i = none)) ∧
    (v.size < n →
        (Resize v d n).size = n ∧
        (∀ i, i < v.size → (Resize v d n).slot i = v.slot i) ∧
        (∀ i, v.size ≤ i → i < n → (Resize v d n).slot i = some d)) ∧
    (n = v.size → Resize v d n = v) := by
  have hcl : v.capacity = v.data.buffer.length := rfl
  have hsc : v.size ≤ v.data.buffer.length := hWF.1
  refine ⟨?_, ?_, ?_⟩
  · intro hlt
    have hne : ¬n = v.size := by omega
    simp only [Resize, if_neg hne, if_pos hlt]
    refine ⟨?_, ?_, ?_, ?_⟩
    case refine_2 => trivial
    · simp [Vector.capacity, RawMemory.capacity, length_destroyN]
    · intro i hi
      exact slotGet_destroyN_lo _ _ _ i hi
    · intro i hi
      simp only [Vector.slot]
      by_cases hc : i < v.size
      · exact slotGet_destroyN_mid _ _ _ i hi (by omega) (by omega)
      · rw [slotGet_destroyN_hi _ _ _ i (by omega)]
        exact hWF.slot_none i (by omega)
  · intro hgt
    have hne : ¬n = v.size := by omega
    have hnlt : ¬n < v.size := by omega
    simp only [Resize, if_neg hne, if_neg hnlt]
    refine ⟨?_, ?_, ?_⟩
    case refine_1 => trivial
    · intro i hi
      simp only [Vector.slot]
      rw [slotGet_constructN_lo _ _ _ _ i hi]
      by_cases hr : n ≤ v.capacity
      · simp [Reserve, hr]
      · simp only [Reserve, if_neg hr]
        rw [slotGet_copyN_mid _ _ _ _ _ i (by omega) (by omega)
          (by simp only [List.length_replicate]; omega)]
        simp
    · intro i hi1 hi2
      simp only [Vector.slot]
      apply slotGet_constructN_mid
      · exact hi1
      · omega
      · by_cases hr : n ≤ v.capacity
        · simp only [Reserve, if_pos hr]
          omega
        · simp only [Reserve, if_neg hr, length_copyN, List.length_replicate]
          omega
  · intro heq
    simp [Resize, heq]

/-- C7: `Insert` at an interior position `pos` shifts elements `[pos, size)`
one slot later, places the new value at `pos`, and returns the position of
the inserted element; `Erase(pos)` move-assigns each element of
`(pos, size)` one slot earlier, decrements the size by 1 without
reallocating (capacity unchanged), and returns position `pos` — which after
the shift holds the element that immediately followed the removed one.
Concretely, `Insert(1, 9)` on `[1, 2, 3]` yields `[1, 9, 2, 3]` with size 4
and `Erase(1)` on `[1, 9, 2, 3]` yields `[1, 2, 3]` with size 3. -/
theorem c7_insert_erase_spec (v : Vector a) (pos : Nat) (x : a)
    (hWF : WF v) (hpos : pos < v.size) :
    ((Insert v pos x).2 = pos ∧
     (Insert v pos x).1.size = v.size + 1 ∧
     (∀ i, i < pos → (Insert v pos x).1.slot i = v.slot i) ∧
     (Insert v pos x).1.slot pos = some x ∧
     (∀ i, pos ≤ i → i < v.size → (Insert v pos x).1.slot (i + 1) = v.slot i)) ∧
    ((Erase v pos).2 = pos ∧
     (Erase v pos).1.size = v.size - 1 ∧
     (Erase v pos).1.capacity = v.capacity ∧
     (∀ i, i < pos → (Erase v pos).1.slot i = v.slot i) ∧
     (∀ i, pos ≤ i → i + 1 < v.size → (Erase v pos).1.slot i = v.slot (i + 1))) ∧
    ((Insert (⟨⟨[some 1, some 2, some 3]⟩, 3⟩ : Vector Nat) 1 9).1.live =
        [some 1, some 9, some 2, some 3] ∧
     (Insert (⟨⟨[some 1, some 2, some 3]⟩, 3⟩ : Vector Nat) 1 9).1.size = 4 ∧
     (Erase (⟨⟨[some 1, some 9, some 2, some 3]⟩, 4⟩ : Vector Nat) 1).1.live =
        [some 1, some 2, some 3] ∧
     (Erase (⟨⟨[some 1, some 9, some 2, some 3]⟩, 4⟩ : Vector Nat) 1).1.size = 3) := by
  have hcl : v.capacity = v.data.buffer.length := rfl
  have hsz : v.size ≤ v.data.buffer.length := hWF.1
  refine ⟨?_, ?_, ?_⟩
  · by_cases hg : v.capacity = v.size
    · have hNdef : (if v.size = 0 then 1 else v.size * 2) = v.size * 2 := by
        have : ¬v.size = 0 := by omega
        simp [this]
      simp only [Insert, Emplace, if_pos hg]
      refine ⟨by trivial, by trivial, ?_, ?_, ?_⟩
      · intro i hi
        simp only [Vector.slot]
        rw [slotGet_copyN_lo _ _ _ _ _ i (by omega)]
        rw [slotGet_copyN_mid _ _ _ _ _ i (by omega) (by omega)
          (by rw [List.length_set, List.length_replicate, hNdef]; omega)]
        simp
      · simp only [Vector.slot]
        rw [slotGet_copyN_lo _ _ _ _ _ pos (by omega)]
        rw [slotGet_copyN_hi _ _ _ _ _ pos (by omega)]
        exact slotGet_set_self _ pos (some x)
          (by rw [List.length_replicate, hNdef]; omega)
      · intro i h1 h2
        simp only [Vector.slot]
        rw [slotGet_copyN_mid _ _ _ _ _ (i + 1) (by omega) (by omega)
          (by rw [length_copyN, List.length_set, List.length_replicate, hNdef]; omega)]
        have he : pos + (i + 1 - (pos + 1)) = i := by omega
        rw [he]
    · have hlen : v.size < v.data.buffer.length := by omega
      have hpne : ¬pos = v.size := by omega
      simp only [Insert, Emplace, if_neg hg, if_neg hpne]
      refine ⟨by trivial, by trivial, ?_, ?_, ?_⟩
      · intro i hi
        simp only [Vector.slot]
        rw [slotGet_set_ne _ pos i _ (by omega)]
        rw [slotGet_copyN_lo _ _ _ _ _ i (by omega)]
        rw [slotGet_set_ne _ v.size i _ (by omega)]
      · simp only [Vector.slot]
        exact slotGet_set_self _ pos (some x)
          (by rw [length_copyN, List.length_set]; omega)
      · intro i h1 h2
        simp only [Vector.slot]
        rw [slotGet_set_ne _ pos (i + 1) _ (by omega)]
        by_cases hlast : i + 1 = v.size
        · rw [slotGet_copyN_hi _ _ _ _ _ (i + 1) (by omega)]
          rw [hlast, slotGet_set_self _ v.size _ (by omega)]
          have he : v.size - 1 = i := by omega
          rw [he]
        · rw [slotGet_copyN_mid _ _ _ _ _ (i + 1) (by omega) (by omega)
            (by rw [List.length_set]; omega)]
          have he : pos + (i + 1 - (pos + 1)) = i := by omega
          rw [he]
  · refine ⟨by trivial, by trivial, ?_, ?_, ?_⟩
    · simp only [Erase, Vector.capacity, RawMemory.capacity]
      rw [List.length_set, length_copyN]
    · intro i hi
      simp only [Erase, Vector.slot]
      rw [slotGet_set_ne _ (v.size - 1) i _ (by omega)]
      rw [slotGet_copyN_lo _ _ _ _ _ i (by omega)]
    · intro i h1 h2
      simp only [Erase, Vector.slot]
      rw [slotGet_set_ne _ (v.size - 1) i _ (by omega)]
      rw [slotGet_copyN_mid _ _ _ _ _ i (by omega) (by omega) (by omega)]
      have he : pos + 1 + (i - pos) = i + 1 := by omega
      rw [he]
  · exact ⟨by decide, by decide, by decide, by decide⟩

theorem c7_insert_erase_spec_witness :
    WF (⟨⟨[some 5, some 6, none]⟩, 2⟩ : Vector Nat) ∧
    (0 : Nat) < (⟨⟨[some 5, some 6, none]⟩, 2⟩ : Vector Nat).size ∧
    (Insert (⟨⟨[some 5, some 6, none]⟩, 2⟩ : Vector Nat) 0 7).1.slot 0 = some 7 ∧
    (Erase (⟨⟨[some 5, some 6, none]⟩, 2⟩ : Vector Nat) 0).1.size = 1 :=
  ⟨by decide, by decide,
   (c7_insert_erase_spec ⟨⟨[some 5, some 6, none]⟩, 2⟩ 0 7 (by decide)
      (by decide)).1.2.2.2.1,
   (c7_insert_erase_spec ⟨⟨[some 5, some 6, none]⟩, 2⟩ 0 7 (by decide)
      (by decide)).2.1.2.1⟩

theorem c6_resize_spec_witness :
    WF (⟨⟨[some 1, some 2, none]⟩, 2⟩ : Vector Nat) ∧
    (1 : Nat) < (⟨⟨[some 1, some 2, none]⟩, 2⟩ : Vector Nat).size ∧
    (Resize (⟨⟨[some 1, some 2, none]⟩, 2⟩ : Vector Nat) 0 1).size = 1 ∧
    (Resize (⟨⟨[some 1, some 2, none]⟩, 2⟩ : Vector Nat) 0 1).capacity =
      (⟨⟨[some 1, some 2, none]⟩, 2⟩ : Vector Nat).capacity :=
  ⟨by decide, by decide,
   ((c6_resize_spec ⟨⟨[some 1, some 2, none]⟩, 2⟩ 0 1 (by decide)).1 (by decide)).2.1,
   ((c6_resize_spec ⟨⟨[some 1, some 2, none]⟩, 2⟩ 0 1 (by decide)).1 (by decide)).1⟩

theorem WF_emptyVec : WF (emptyVec a) := by
  refine ⟨Nat.le_refl 0, ?_⟩
  intro i hi
  simp [emptyVec, Vector.capacity, RawMemory.capacity] at hi

theorem WF_mkVec (d : a) (n : Nat) : WF (mkVec d n) := by
  refine ⟨?_, ?_⟩
  · simp [mkVec, Vector.capacity, RawMemory.capacity, length_constructN,
      List.length_replicate]
  · intro i hi
    have hi2 : i < n := by
      simpa [mkVec, Vector.capacity, RawMemory.capacity, length_constructN,
        List.length_replicate] using hi
    simp only [mkVec]
    rw [slotGet_constructN_mid d _ 0 n i (by omega) (by omega)
      (by rw [List.length_replicate]; omega)]
    simp [hi2]

theorem WF_copyCtorV {w : Vector a} (hw : WF w) : WF (copyCtorV w) := by
  have hwc : w.size ≤ w.capacity := hw.1
  refine ⟨?_, ?_⟩
  · simp [copyCtorV, Vector.capacity, RawMemory.capacity, length_copyN,
      List.length_replicate]
  · intro i hi
    have hi2 : i < w.size := by
      simpa [copyCtorV, Vector.capacity, RawMemory.capacity, length_copyN,
        List.length_replicate] using hi
    simp only [copyCtorV]
    rw [slotGet_copyN_mid _ _ _ _ _ i (by omega) (by omega)
      (by rw [List.length_replicate]; omega)]
    simp only [Nat.zero_add, Nat.sub_zero]
    rw [hw.2 i (by omega)]

theorem WF_Reserve {v : Vector a} (hWF : WF v) (n : Nat) : WF (Reserve v n) := by
  have hcl : v.capacity = v.data.buffer.length := rfl
  have hs : v.size ≤ v.capacity := hWF.1
  by_cases hr : n ≤ v.capacity
  · simpa [Reserve, hr] using hWF
  · simp only [Reserve, if_neg hr]
    refine ⟨?_, ?_⟩
    · dsimp only [Vector.capacity, RawMemory.capacity]
      rw [length_copyN, List.length_replicate]
      omega
    · intro i hi
      dsimp only [Vector.capacity, RawMemory.capacity] at hi
      rw [length_copyN, List.length_replicate] at hi
      dsimp only
      by_cases hc : i < v.size
      · rw [slotGet_copyN_mid _ _ _ _ _ i (by omega) (by omega)
          (by rw [List.length_replicate]; omega)]
        simp only [Nat.zero_add, Nat.sub_zero]
        rw [hWF.2 i (by omega)]
      · rw [slotGet_copyN_hi _ _ _ _ _ i (by omega)]
        rw [slotGet_replicate]
        simp
        omega

theorem WF_Resize {v : Vector a} (hWF : WF v) (d : a) (n : Nat) : WF (Resize v d n) := by
  have hcl : v.capacity = v.data.buffer.length := rfl
  have hs : v.size ≤ v.capacity := hWF.1
  by_cases h1 : n = v.size
  · simpa [Resize, h1] using hWF
  by_cases h2 : n < v.size
  · simp only [Resize, if_neg h1, if_pos h2]
    refine ⟨?_, ?_⟩
    · dsimp only [Vector.capacity, RawMemory.capacity]
      rw [length_destroyN]
      omega
    · intro i hi
      dsimp only [Vector.capacity, RawMemory.capacity] at hi
      rw [length_destroyN] at hi
      dsimp only
      by_cases hc : i < n
      · rw [slotGet_destroyN_lo _ _ _ i hc]
        rw [hWF.2 i (by omega)]
        omega
      · by_cases hc2 : i < v.size
        · rw [slotGet_destroyN_mid _ _ _ i (by omega) (by omega) (by omega)]
          simp
          omega
        · rw [slotGet_destroyN_hi _ _ _ i (by omega)]
          rw [hWF.slot_none i (by omega)]
          simp
          omega
  · simp only [Resize, if_neg h1, if_neg h2]
    have hR : WF (Reserve v n) := WF_Reserve hWF n
    have hRcap : n ≤ (Reserve v n).capacity := by
      by_cases hr : n ≤ v.capacity
      · simp only [Reserve, if_pos hr]
        omega
      · simp only [Reserve, if_neg hr]
        dsimp only [Vector.capacity, RawMemory.capacity]
        rw [length_copyN, List.length_replicate]
    have hRsize : (Reserve v n).size = v.size := by
      by_cases hr : n ≤ v.capacity <;> simp [Reserve, hr]
    have hRlen : (Reserve v n).capacity = (Reserve v n).data.buffer.length := rfl
    refine ⟨?_, ?_⟩
    · dsimp only [Vector.capacity, RawMemory.capacity]
      rw [length_constructN]
      omega
    · intro i hi
      dsimp only [Vector.capacity, RawMemory.capacity] at hi
      rw [length_constructN] at hi
      dsimp only
      by_cases hc : i < v.size
      · rw [slotGet_constructN_lo _ _ _ _ i hc]
        rw [hR.2 i (by omega), hRsize]
        omega
      · by_cases hc2 : i < n
        · rw [slotGet_constructN_mid _ _ _ _ i (by omega) (by omega) (by omega)]
          simp
          omega
        · rw [slotGet_constructN_hi _ _ _ _ i (by omega)]
          rw [hR.slot_none i (by omega)]
          simp
          omega

theorem WF_PushBack {v : Vector a} (hWF : WF v) (x : a) : WF (PushBack v x) := by
  have hcl : v.capacity = v.data.buffer.length := rfl
  have hs : v.size ≤ v.capacity := hWF.1
  by_cases hg : v.capacity = v.size
  · have hsN : v.size < (if v.size = 0 then 1 else v.size * 2) := by
      by_cases hz : v.size = 0
      · simp [hz]
      · simp only [if_neg hz]
        omega
    simp only [PushBack, if_pos hg]
    refine ⟨?_, ?_⟩
    · dsimp only [Vector.capacity, RawMemory.capacity]
      rw [length_copyN, List.length_set, List.length_replicate]
      omega
    · intro i hi
      dsimp only [Vector.capacity, RawMemory.capacity] at hi
      rw [length_copyN, List.length_set, List.length_replicate] at hi
      dsimp only
      by_cases hc : i < v.size
      · rw [slotGet_copyN_mid _ _ _ _ _ i (by omega) (by omega)
          (by rw [List.length_set, List.length_replicate]; omega)]
        simp only [Nat.zero_add, Nat.sub_zero]
        rw [hWF.2 i (by omega)]
        omega
      · rw [slotGet_copyN_hi _ _ _ _ _ i (by omega)]
        by_cases he : i = v.size
        · subst he
          rw [slotGet_set_self _ _ _ (by rw [List.length_replicate]; omega)]
          simp
        · rw [slotGet_set_ne _ _ _ _ (by omega)]
          rw [slotGet_replicate]
          simp
          omega
  · have hlt : v.size < v.data.buffer.length := by omega
    simp only [PushBack, if_neg hg]
    refine ⟨?_, ?_⟩
    · dsimp only [Vector.capacity, RawMemory.capacity]
      rw [List.length_set]
      omega
    · intro i hi
      dsimp only [Vector.capacity, RawMemory.capacity] at hi
      rw [List.length_set] at hi
      dsimp only
      by_cases he : i = v.size
      · subst he
        rw [slotGet_set_self _ _ _ (by omega)]
        simp
      · rw [slotGet_set_ne _ _ _ _ (by omega)]
        rw [hWF.2 i (by omega)]
        omega

theorem WF_Emplace {v : Vector a} (hWF : WF v) (pos : Nat) (x : a)
    (hpos : pos ≤ v.size) : WF (Emplace v pos x).1 := by
  have hcl : v.capacity = v.data.buffer.length := rfl
  have hs : v.size ≤ v.capacity := hWF.1
  by_cases hg : v.capacity = v.size
  · have hsN : v.size < (if v.size = 0 then 1 else v.size * 2) := by
      by_cases hz : v.size = 0
      · simp [hz]
      · simp only [if_neg hz]
        omega
    simp only [Emplace, if_pos hg]
    refine ⟨?_, ?_⟩
    · dsimp only [Vector.capacity, RawMemory.capacity]
      rw [length_copyN, length_copyN, List.length_set, List.length_replicate]
      omega
    · intro i hi
      dsimp only [Vector.capacity, RawMemory.capacity] at hi
      rw [length_copyN, length_copyN, List.length_set, List.length_replicate] at hi
      dsimp only
      by_cases h1 : i < pos
      · rw [slotGet_copyN_lo _ _ _ _ _ i (by omega)]
        rw [slotGet_copyN_mid _ _ _ _ _ i (by omega) (by omega)
          (by rw [List.length_set, List.length_replicate]; omega)]
        simp only [Nat.zero_add, Nat.sub_zero]
        rw [hWF.2 i (by omega)]
        omega
      · by_cases h2 : i = pos
        · subst h2
          rw [slotGet_copyN_lo _ _ _ _ _ i (by omega)]
          rw [slotGet_copyN_hi _ _ _ _ _ i (by omega)]
          rw [slotGet_set_self _ _ _ (by rw [List.length_replicate]; omega)]
          simp
          omega
        · by_cases h3 : i ≤ v.size
          · rw [slotGet_copyN_mid _ _ _ _ _ i (by omega) (by omega)
              (by rw [length_copyN, List.length_set, List.length_replicate]; omega)]
            rw [hWF.2 (pos + (i - (pos + 1))) (by omega)]
            omega
          · rw [slotGet_copyN_hi _ _ _ _ _ i (by omega)]
            rw [slotGet_copyN_hi _ _ _ _ _ i (by omega)]
            rw [slotGet_set_ne _ _ _ _ (by omega)]
            rw [slotGet_replicate]
            simp
            omega
  · by_cases hp : pos = v.size
    · simp only [Emplace, if_neg hg, if_pos hp]
      refine ⟨?_, ?_⟩
      · dsimp only [Vector.capacity, RawMemory.capacity]
        rw [List.length_set]
        omega
      · intro i hi
        dsimp only [Vector.capacity, RawMemory.capacity] at hi
        rw [List.length_set] at hi
        dsimp only
        by_cases he : i = v.size
        · subst he
          rw [slotGet_set_self _ _ _ (by omega)]
          simp
        · rw [slotGet_set_ne _ _ _ _ (by omega)]
          rw [hWF.2 i (by omega)]
          omega
    · have hplt : pos < v.size := by omega
      have hlt : v.size < v.data.buffer.length := by omega
      simp only [Emplace, if_neg hg, if_neg hp]
      refine ⟨?_, ?_⟩
      · dsimp only [Vector.capacity, RawMemory.capacity]
        rw [List.length_set, length_copyN, List.length_set]
        omega
      · intro i hi
        dsimp only [Vector.capacity, RawMemory.capacity] at hi
        rw [List.length_set, length_copyN, List.length_set] at hi
        dsimp only
        by_cases h1 : i < pos
        · rw [slotGet_set_ne _ _ _ _ (by omega)]
          rw [slotGet_copyN_lo _ _ _ _ _ i (by omega)]
          rw [slotGet_set_ne _ _ _ _ (by omega)]
          rw [hWF.2 i (by omega)]
          omega
        · by_cases h2 : i = pos
          · subst h2
            rw [slotGet_set_self _ _ _ (by rw [length_copyN, List.length_set]; omega)]
            simp
            omega
          · by_cases h3 : i < v.size
            · rw [slotGet_set_ne _ _ _ _ (by omega)]
              rw [slotGet_copyN_mid _ _ _ _ _ i (by omega) (by omega)
                (by rw [List.length_set]; omega)]
              rw [hWF.2 (pos + (i - (pos + 1))) (by omega)]
              omega
            · by_cases h4 : i = v.size
              · rw [slotGet_set_ne _ _ _ _ (by omega)]
                rw [slotGet_copyN_hi _ _ _ _ _ i (by omega)]
                rw [h4, slotGet_set_self _ _ _ (by omega)]
                rw [hWF.2 (v.size - 1) (by omega)]
                omega
              · rw [slotGet_set_ne _ _ _ _ (by omega)]
                rw [slotGet_copyN_hi _ _ _ _ _ i (by omega)]
                rw [slotGet_set_ne _ _ _ _ (by omega)]
                rw [hWF.2 i (by omega)]
                omega

theorem WF_Erase {v : Vector a} (hWF : WF v) (pos : Nat) (hpos : pos < v.size) :
    WF (Erase v pos).1 := by
  have hcl : v.capacity = v.data.buffer.length := rfl
  have hs : v.size ≤ v.capacity := hWF.1
  refine ⟨?_, ?_⟩
  · dsimp only [Erase, Vector.capacity, RawMemory.capacity]
    rw [List.length_set, length_copyN]
    omega
  · intro i hi
    dsimp only [Erase, Vector.capacity, RawMemory.capacity] at hi
    rw [List.length_set, length_copyN] at hi
    dsimp only [Erase]
    by_cases h1 : i = v.size - 1
    · subst h1
      rw [slotGet_set_self _ _ _ (by rw [length_copyN]; omega)]
      simp
    · rw [slotGet_set_ne _ _ _ _ (by omega)]
      by_cases h2 : i < pos
      · rw [slotGet_copyN_lo _ _ _ _ _ i (by omega)]
        rw [hWF.2 i (by omega)]
        omega
      · by_cases h3 : i < v.size - 1
        · rw [slotGet_copyN_mid _ _ _ _ _ i (by omega) (by omega) (by omega)]
          rw [hWF.2 (pos + 1 + (i - pos)) (by omega)]
          omega
        · rw [slotGet_copyN_hi _ _ _ _ _ i (by omega)]
          rw [hWF.2 i (by omega)]
          omega

theorem WF_PopBack {v : Vector a} (hWF : WF v) (h : 0 < v.size) : WF (PopBack v) := by
  have hcl : v.capacity = v.data.buffer.length := rfl
  have hs : v.size ≤ v.capacity := hWF.1
  refine ⟨?_, ?_⟩
  · dsimp only [PopBack, Vector.capacity, RawMemory.capacity]
    rw [List.length_set]
    omega
  · intro i hi
    dsimp only [PopBack, Vector.capacity, RawMemory.capacity] at hi
    rw [List.length_set] at hi
    dsimp only [PopBack]
    by_cases h1 : i = v.size - 1
    · subst h1
      rw [slotGet_set_self _ _ _ (by omega)]
      simp
    · rw [slotGet_set_ne _ _ _ _ (by omega)]
      rw [hWF.2 i (by omega)]
      omega

theorem WF_assignCopy {v w : Vector a} (hWF : WF v) (hw : WF w) :
    WF (assignCopy v w) := by
  have hcl : v.capacity = v.data.buffer.length := rfl
  have hs : v.size ≤ v.capacity := hWF.1
  have hwc : w.size ≤ w.capacity := hw.1
  by_cases hb : w.size ≤ v.capacity
  · by_cases hd : v.size ≤ w.size
    · simp only [assignCopy, if_pos hb, if_pos hd]
      refine ⟨?_, ?_⟩
      · dsimp only [Vector.capacity, RawMemory.capacity]
        rw [length_copyN, length_copyN]
        omega
      · intro i hi
        dsimp only [Vector.capacity, RawMemory.capacity] at hi
        rw [length_copyN, length_copyN] at hi
        dsimp only
        by_cases h1 : i < v.size
        · rw [slotGet_copyN_lo _ _ _ _ _ i (by omega)]
          rw [slotGet_copyN_mid _ _ _ _ _ i (by omega) (by omega) (by omega)]
          simp only [Nat.zero_add, Nat.sub_zero]
          rw [hw.2 i (by omega)]
        · by_cases h2 : i < w.size
          · rw [slotGet_copyN_mid _ _ _ _ _ i (by omega) (by omega)
              (by rw [length_copyN]; omega)]
            have he : v.size + (i - v.size) = i := by omega
            rw [he]
            rw [hw.2 i (by omega)]
          · rw [slotGet_copyN_hi _ _ _ _ _ i (by omega)]
            rw [slotGet_copyN_hi _ _ _ _ _ i (by omega)]
            rw [hWF.2 i (by omega)]
            omega
    · simp only [assignCopy, if_pos hb, if_neg hd]
      refine ⟨?_, ?_⟩
      · dsimp only [Vector.capacity, RawMemory.capacity]
        rw [length_destroyN, length_copyN]
        omega
      · intro i hi
        dsimp only [Vector.capacity, RawMemory.capacity] at hi
        rw [length_destroyN, length_copyN] at hi
        dsimp only
        by_cases h1 : i < w.size
        · rw [slotGet_destroyN_lo _ _ _ i (by omega)]
          rw [slotGet_copyN_mid _ _ _ _ _ i (by omega) (by omega) (by omega)]
          simp only [Nat.zero_add, Nat.sub_zero]
          rw [hw.2 i (by omega)]
        · by_cases h2 : i < v.size
          · rw [slotGet_destroyN_mid _ _ _ i (by omega) (by omega)
              (by rw [length_copyN]; omega)]
            simp
            omega
          · rw [slotGet_destroyN_hi _ _ _ i (by omega)]
            rw [slotGet_copyN_hi _ _ _ _ _ i (by omega)]
            rw [hWF.2 i (by omega)]
            omega
  · simp only [assignCopy, if_neg hb]
    exact WF_copyCtorV hw

/-- C9 counterexample: self-move-assignment is a public operation of the
listed kind (move assignment) with no precondition, executed on a vector
satisfying the invariant, after which the invariant fails: the buffer and
capacity are kept, size becomes 0, yet slot 0 still holds a live
(never-destroyed) element, so the slots `[size, capacity)` are not all raw. -/
theorem c9_counterexample :
    WF (⟨⟨[some 1]⟩, 1⟩ : Vector Nat) ∧
    Op.pre Op.assignMoveSelfOp (⟨⟨[some 1]⟩, 1⟩ : Vector Nat) ∧
    ¬WF (Op.applyOp Op.assignMoveSelfOp (⟨⟨[some 1]⟩, 1⟩ : Vector Nat)) :=
  ⟨by decide, trivial, by decide⟩

/-- C9 (amended): for every vector satisfying the class invariant and every
public operation (construction, copy assignment, move assignment from a
distinct vector, Reserve, Resize, PushBack, EmplaceBack, Emplace, Insert,
Erase, PopBack, Swap) — that is, every listed operation except
self-move-assignment — executed under its documented preconditions and
completing normally, the invariant `size ≤ capacity` holds afterwards and
exactly the slots `[0, size)` hold live elements.  (After
self-move-assignment `size ≤ capacity` still holds but the formerly live
slots remain constructed while `size = 0`.) -/
theorem c9_ops_preserve_invariant (op : Op a) (v : Vector a) (hWF : WF v)
    (hpre : op.pre v) (hne : op ≠ Op.assignMoveSelfOp) : WF (op.applyOp v) := by
  cases op with
  | ctorEmpty => exact WF_emptyVec
  | ctorN d n => exact WF_mkVec d n
  | ctorCopy w => exact WF_copyCtorV hpre
  | ctorMove w => exact hpre
  | reserveOp n => exact WF_Reserve hWF n
  | resizeOp d n => exact WF_Resize hWF d n
  | pushBackOp x => exact WF_PushBack hWF x
  | emplaceBackOp x => exact WF_PushBack hWF x
  | emplaceOp p x => exact WF_Emplace hWF p x hpre
  | insertOp p x => exact WF_Emplace hWF p x hpre
  | eraseOp p => exact WF_Erase hWF p hpre
  | popBackOp => exact WF_PopBack hWF hpre
  | assignCopyOp w => exact WF_assignCopy hWF hpre
  | assignCopySelfOp => exact hWF
  | assignMoveOp w => exact hpre
  | assignMoveSelfOp => exact absurd rfl hne
  | swapOp w => exact hpre

theorem c9_ops_preserve_invariant_witness :
    WF (⟨⟨[some 1, none]⟩, 1⟩ : Vector Nat) ∧
    Op.pre (Op.eraseOp 0) (⟨⟨[some 1, none]⟩, 1⟩ : Vector Nat) ∧
    (Op.eraseOp 0 : Op Nat) ≠ Op.assignMoveSelfOp ∧
    WF (Op.applyOp (Op.eraseOp 0) (⟨⟨[some 1, none]⟩, 1⟩ : Vector Nat)) :=
  ⟨by decide, by decide, by decide,
   c9_ops_preserve_invariant (Op.eraseOp 0) ⟨⟨[some 1, none]⟩, 1⟩ (by decide)
     (by decide) (by decide)⟩

end AdvVec
